import Mathlib

/-!
Shallow embedding of the spicy-pickle inventory core: the availability
calculators, the sync-lock manager, the sync orchestrator pipeline
(`processInventoryUpdate`), and the pick-list aggregation/CSV export.
JavaScript numbers used as stock counts are modelled as `Int` (all the
arithmetic the code performs on them is integer arithmetic:
`Math.floor` of a division by a positive integer is `Int.fdiv`); code
that can `throw` is modelled in `Except String`.
-/

namespace SpicyPickle

/-- `calculateBundleAvailability(physicalStock, multiplier)` from
`inventory-sync.server`: throws when `multiplier <= 0`, otherwise
returns `Math.floor(physicalStock / multiplier)`, which for a positive
divisor is floor division `Int.fdiv`. -/
def calculateBundleAvailability (physicalStock multiplier : Int) : Except String Int :=
  if multiplier ≤ 0 then
    .error "Multiplier must be a positive number"
  else
    .ok (Int.fdiv physicalStock multiplier)

/-- A mixed-bundle component as the source's `{ stock, quantity }` record. -/
structure Component where
  stock : Int
  quantity : Int
  deriving Repr, DecidableEq

/-- `Math.min` over a non-empty list (the source spreads a non-empty
array into `Math.min`). -/
def listMin (x : Int) (xs : List Int) : Int :=
  xs.foldl min x

/-- The `components.map(...)` callback of
`calculateMixedBundleAvailability`, which throws on the first component
whose `quantity <= 0` and otherwise yields
`Math.floor(stock / quantity)`; a JavaScript `map` with a throwing
callback is a left-to-right traversal in `Except`. -/
def mapComponents : List Component → Except String (List Int)
  | [] => .ok []
  | component :: rest =>
    if component.quantity ≤ 0 then
      .error "Component quantity must be a positive number"
    else
      match mapComponents rest with
      | .error e => .error e
      | .ok as => .ok (Int.fdiv component.stock component.quantity :: as)

/-- `calculateMixedBundleAvailability(components)`: returns 0 for an
empty array; otherwise maps each component through `mapComponents` and
takes `Math.min` of the resulting non-empty array (the head/tail split of
the spread `Math.min(...availabilities)` is unfolded one step). -/
def calculateMixedBundleAvailability (components : List Component) : Except String Int :=
  match components with
  | [] => .ok 0
  | component :: rest =>
    if component.quantity ≤ 0 then
      .error "Component quantity must be a positive number"
    else
      match mapComponents rest with
      | .error e => .error e
      | .ok as => .ok (listMin (Int.fdiv component.stock component.quantity) as)

/-! ### Sync lock manager

The `syncLock` table is modelled as a list of rows; `Date` timestamps
are milliseconds since the epoch (`Nat`). -/

/-- `SYNC_LOCK_TTL_MS = 60 * 1000`. -/
def SYNC_LOCK_TTL_MS : Nat := 60 * 1000

/-- A `syncLock` row: `id` is the primary key. -/
structure SyncLock where
  id : String
  bundleId : String
  expiresAt : Nat
  deriving Repr, DecidableEq

/-- `acquireSyncLock(lockId, bundleId)` at time `now`: first
`deleteMany` of every lock with `expiresAt < now` (expired-lock
cleanup), then `create` of a lock with `expiresAt = now + TTL`; the
create fails by the primary-key uniqueness constraint exactly when a
lock with the same id survived the cleanup, and that violation is
caught and mapped to `false`. Returns the boolean outcome and the
resulting lock table. -/
def acquireSyncLock (now : Nat) (lockId bundleId : String) (store : List SyncLock) :
    Bool × List SyncLock :=
  let cleaned := store.filter (fun l => decide (¬ l.expiresAt < now))
  if cleaned.any (fun l => l.id == lockId) then
    (false, cleaned)
  else
    (true, cleaned ++ [⟨lockId, bundleId, now + SYNC_LOCK_TTL_MS⟩])

/-- `releaseSyncLock(lockId)`: delete of the lock row by id; a missing
row is swallowed by the `.catch`. -/
def releaseSyncLock (lockId : String) (store : List SyncLock) : List SyncLock :=
  store.filter (fun l => !(l.id == lockId))

/-! ### Pick list service -/

/-- An `OrderLineItem` of `picklist.server`; `sku` is `string | null`. -/
structure OrderLineItem where
  variantGid : String
  productTitle : String
  variantTitle : String
  sku : Option String
  quantity : Int
  deriving Repr, DecidableEq

/-- One step of the `aggregateItems` loop: when the map already holds an
entry for the item's variant id, add the quantity onto that entry
(`existing.quantity += item.quantity`, metadata untouched), otherwise
insert a copy of the item; the JavaScript `Map` preserves insertion
order, modelled by the list order. -/
def aggStep (acc : List OrderLineItem) (item : OrderLineItem) : List OrderLineItem :=
  if acc.any (fun e => e.variantGid == item.variantGid) then
    acc.map (fun e =>
      if e.variantGid == item.variantGid then
        { e with quantity := e.quantity + item.quantity }
      else e)
  else
    acc ++ [item]

/-- `aggregateItems(items)`: the loop over the input followed by
`Array.from(aggregated.values())`, which yields insertion order. -/
def aggregateItems (items : List OrderLineItem) : List OrderLineItem :=
  items.foldl aggStep []

/-- Total quantity carried by a variant id in a line-item list (the
spec's "summing quantities" for one group). -/
def sumQty (gid : String) : List OrderLineItem → Int
  | [] => 0
  | i :: rest => (if i.variantGid == gid then i.quantity else 0) + sumQty gid rest

/-- The specification-side description of aggregation for C7: one output
entry per distinct variant id in first-occurrence order, carrying the
first occurrence's descriptive metadata and the summed quantity of the
whole group. -/
def specAggregate : List OrderLineItem → List OrderLineItem
  | [] => []
  | i :: rest =>
    { i with quantity := i.quantity + sumQty i.variantGid rest } ::
      specAggregate (rest.filter (fun j => !(j.variantGid == i.variantGid)))
termination_by l => l.length
decreasing_by
  simp only [List.length_cons]
  exact Nat.lt_succ_of_le (List.length_filter_le _ _)

/-- A `PickListItem`: an aggregated entry joined with a nullable bin
location. -/
structure PickListItem where
  productTitle : String
  variantTitle : String
  sku : Option String
  variantGid : String
  quantity : Int
  binLocation : Option String
  deriving Repr, DecidableEq

/-- `value.replace(/"/g, '""')`: the pattern is the single character
`"`, so the global replacement is a character-level flat map over the
string's characters. -/
def doubleQuotes (value : String) : String :=
  String.mk (value.data.foldr (fun c acc => (if c = '"' then ['"', '"'] else [c]) ++ acc) [])

/-- `escapeCSV(value)`: quote-wrap the value, doubling internal quotes,
when it contains a comma, double quote or newline; `String.data` is the
character sequence the JavaScript `includes` checks scan. -/
def escapeCSV (value : String) : String :=
  if value.data.contains ',' || value.data.contains '"' || value.data.contains '\n' then
    "\"" ++ doubleQuotes value ++ "\""
  else value

/-- `Array.prototype.join(sep)`. -/
def joinSep (sep : String) : List String → String
  | [] => ""
  | [x] => x
  | x :: y :: xs => x ++ sep ++ joinSep sep (y :: xs)

/-- `exportToCSV(items)`: the fixed header row followed by one row per
item in input order; a row holds the five escaped fields joined by
commas (null SKU and bin location render as empty fields via `?? ""`),
and all rows are joined by newlines. -/
def exportToCSV (items : List PickListItem) : String :=
  let headers := ["Product", "Variant", "SKU", "Quantity", "Bin Location"]
  let rows := items.map (fun item =>
    [escapeCSV item.productTitle, escapeCSV item.variantTitle,
     escapeCSV (item.sku.getD ""), toString item.quantity,
     escapeCSV (item.binLocation.getD "")])
  joinSep "\n" (joinSep "," headers :: rows.map (joinSep ","))

/-- The specification-side rendering of one CSV row for C8: the five
escaped fields in the header's order, comma-separated. -/
def specCsvRow (item : PickListItem) : String :=
  escapeCSV item.productTitle ++ "," ++ escapeCSV item.variantTitle ++ "," ++
    escapeCSV (item.sku.getD "") ++ "," ++ toString item.quantity ++ "," ++
    escapeCSV (item.binLocation.getD "")

/-! ### Sync orchestrator

The admin-API collaborators are modelled as pure lookup functions fixed
for a run (`Env`), the mutable external world (inventory ledger and
lock table) as `SyncState`, and a thrown JavaScript exception as the
`Except.error` branch of the result, with the external state kept in
both branches (external writes persist across a throw). -/

/-- A `children` row of `BundleWithChildren`. -/
structure BundleChild where
  id : String
  childGid : String
  quantity : Int
  deriving Repr, DecidableEq

/-- A `BundleWithChildren` row. -/
structure Bundle where
  id : String
  shopId : String
  name : String
  parentGid : String
  children : List BundleChild
  deriving Repr, DecidableEq

/-- An `InventoryUpdateEvent` webhook payload. -/
structure InventoryUpdateEvent where
  inventoryItemId : Int
  locationId : Int
  available : Int
  shop : String
  deriving Repr, DecidableEq

/-- An `InventoryAdjustment`. -/
structure InventoryAdjustment where
  inventoryItemId : String
  locationId : String
  delta : Int
  deriving Repr, DecidableEq

/-- A `SyncResult`. -/
structure SyncResult where
  processed : Bool
  bundlesAffected : Nat
  adjustmentsMade : Nat
  skipped : Option String
  error : Option String
  deriving Repr, DecidableEq

/-- The external collaborators of one run: `findVariantForInventoryItem`
(via the admin API), `getInventoryItemForVariant`, the shop's bundle
table, and whether the `inventoryAdjustQuantities` call fails in
transport (a rejected `admin.graphql` promise). -/
structure Env where
  resolveVariant : Int → Option String
  inventoryItem : String → Option String
  bundles : List Bundle
  adjustFails : Bool

/-- The mutable external state: the ledger's available quantity per
inventory item at the event's location (`none` when the gateway reports
no level) and the sync-lock table. -/
structure SyncState where
  levels : String → Option Int
  locks : List SyncLock

/-- The `Map`-based dedup of `findBundlesForVariant`: `Map.set` keeps
the first insertion position for an id (the colliding values are equal
rows of the same table). -/
def dedupById (bundles : List Bundle) : List Bundle :=
  bundles.foldl (fun acc b => if acc.any (fun x => x.id == b.id) then acc else acc ++ [b]) []

/-- `findBundlesForVariant(shop, variantGid)`: the bundles where the
variant is the parent, then those where it occurs among the children,
deduplicated by bundle id. -/
def findBundlesForVariant (bundles : List Bundle) (shop variantGid : String) : List Bundle :=
  let parentBundles := bundles.filter (fun b => b.shopId == shop && b.parentGid == variantGid)
  let childBundles := bundles.filter (fun b =>
    b.shopId == shop && b.children.any (fun c => c.childGid == variantGid))
  dedupById (parentBundles ++ childBundles)

/-- Whether a variant GID belongs to the bundle's variant set
`[...new Set([parentGid, ...children.map(childGid)])]`. -/
def inBundle (b : Bundle) (gid : String) : Bool :=
  gid == b.parentGid || b.children.any (fun c => c.childGid == gid)

/-- `inventoryItemMap.get(gid)` after the resolution loop of
`calculateBundleAdjustments`: defined exactly on the bundle's variants
whose inventory-item resolution succeeded. -/
def itemOf (env : Env) (b : Bundle) (gid : String) : Option String :=
  if inBundle b gid then env.inventoryItem gid else none

/-- `stockMap.get(gid)`: the webhook's `newAvailable` for the changed
variant, the gateway level with `?? 0` otherwise; keyed like `itemOf`. -/
def stockOf (env : Env) (levels : String → Option Int) (b : Bundle)
    (changedGid : String) (newAvailable : Int) (gid : String) : Option Int :=
  match itemOf env b gid with
  | none => none
  | some itemId =>
    if gid == changedGid then some newAvailable
    else some ((levels itemId).getD 0)

/-- The expected parent availability computed by
`calculateBundleAdjustments`: with exactly one child the bundle is a
same-product bundle (`calculateBundleAvailability` of the base stock
and the child quantity), otherwise it is mixed
(`calculateMixedBundleAvailability` over all children); component
stocks are read from the stock map with `?? 0`. -/
def expectedOf (env : Env) (levels : String → Option Int) (b : Bundle)
    (changedGid : String) (newAvailable : Int) : Except String Int :=
  match b.children with
  | [child] =>
    calculateBundleAvailability
      ((stockOf env levels b changedGid newAvailable child.childGid).getD 0) child.quantity
  | children =>
    calculateMixedBundleAvailability
      (children.map (fun c =>
        ⟨(stockOf env levels b changedGid newAvailable c.childGid).getD 0, c.quantity⟩))

/-- `calculateBundleAdjustments`: builds the stock map, computes the
expected parent availability by bundle type and emits one parent
adjustment for `delta = expected - currentParentStock` when the delta
is non-zero and the parent's item resolved; the calculator's exception
propagates. -/
def calculateBundleAdjustments (env : Env) (levels : String → Option Int) (b : Bundle)
    (locationGid changedGid : String) (newAvailable : Int) :
    Except String (List InventoryAdjustment) :=
  match expectedOf env levels b changedGid newAvailable with
  | .error e => .error e
  | .ok expected =>
    let currentParentStock := (stockOf env levels b changedGid newAvailable b.parentGid).getD 0
    let parentDelta := expected - currentParentStock
    if parentDelta ≠ 0 then
      match itemOf env b b.parentGid with
      | some parentItemId => .ok [⟨parentItemId, locationGid, parentDelta⟩]
      | none => .ok []
    else .ok []

/-- One ledger mutation: the gateway's primitive is a relative delta on
the item's available quantity. -/
def applyAdjustment (levels : String → Option Int) (adj : InventoryAdjustment) :
    String → Option Int :=
  fun itemId =>
    if itemId == adj.inventoryItemId then some ((levels itemId).getD 0 + adj.delta)
    else levels itemId

/-- `adjustInventoryLevels`: zero-delta adjustments are filtered out and
an empty batch issues no call; otherwise the batched mutation either
fails in transport or applies every delta. -/
def adjustInventoryLevels (env : Env) (levels : String → Option Int)
    (adjustments : List InventoryAdjustment) : Except String (String → Option Int) :=
  let nonZero := adjustments.filter (fun a => decide (a.delta ≠ 0))
  if nonZero.isEmpty then .ok levels
  else if env.adjustFails then .error "inventory adjustment transport failure"
  else .ok (nonZero.foldl applyAdjustment levels)

/-- The per-bundle sync lock id `sync-` + bundle id + `-` + location id
+ `-` + `Date.now()`. -/
def mkLockId (bundleId : String) (locationId : Int) (now : Nat) : String :=
  "sync-" ++ bundleId ++ "-" ++ toString locationId ++ "-" ++ toString now

/-- The location GID `gid://shopify/Location/` + location id. -/
def locationGidOf (event : InventoryUpdateEvent) : String :=
  "gid://shopify/Location/" ++ toString event.locationId

/-- The per-bundle loop of `processInventoryUpdate`: acquire the sync
lock (skipping the bundle when it is held), compute and apply the
adjustments, and release the lock in a `finally` on both the success
and the error path; an uncaught error aborts the remaining bundles
after the release. Returns the running adjustment total or the
propagated error, with the external state. -/
def processBundles (env : Env) (changedGid locationGid : String) (locationId : Int)
    (newAvailable : Int) (now : Nat) :
    List Bundle → Nat → SyncState → Except String Nat × SyncState
  | [], total, st => (.ok total, st)
  | b :: rest, total, st =>
    let lockId := mkLockId b.id locationId now
    let acq := acquireSyncLock now lockId b.id st.locks
    let st1 : SyncState := ⟨st.levels, acq.2⟩
    if acq.1 then
      match calculateBundleAdjustments env st1.levels b locationGid changedGid newAvailable with
      | .error e => (.error e, ⟨st1.levels, releaseSyncLock lockId st1.locks⟩)
      | .ok adjustments =>
        match adjustInventoryLevels env st1.levels adjustments with
        | .error e => (.error e, ⟨st1.levels, releaseSyncLock lockId st1.locks⟩)
        | .ok levels2 =>
          processBundles env changedGid locationGid locationId newAvailable now rest
            (total + adjustments.length) ⟨levels2, releaseSyncLock lockId st1.locks⟩
    else
      processBundles env changedGid locationGid locationId newAvailable now rest total st1

/-- `processInventoryUpdate(admin, event)` at time `now` against
external state `st`: resolve the variant, find its bundles, run the
per-bundle loop and report the totals; resolution failure and a variant
in no bundle return early with a `skipped` reason. -/
def processInventoryUpdate (env : Env) (event : InventoryUpdateEvent) (now : Nat)
    (st : SyncState) : Except String SyncResult × SyncState :=
  match env.resolveVariant event.inventoryItemId with
  | none =>
    (.ok ⟨false, 0, 0, some "Could not find variant for inventory item", none⟩, st)
  | some variantGid =>
    let bundles := findBundlesForVariant env.bundles event.shop variantGid
    if bundles.isEmpty then
      (.ok ⟨true, 0, 0, some "Variant is not part of any bundle", none⟩, st)
    else
      match processBundles env variantGid (locationGidOf event) event.locationId event.available now
          bundles 0 st with
      | (.ok total, st2) => (.ok ⟨true, bundles.length, total, none, none⟩, st2)
      | (.error e, st2) => (.error e, st2)

/-! ### Helper lemmas for the calculators -/

theorem listMin_cons (a x : Int) (xs : List Int) :
    listMin a (x :: xs) = listMin (min a x) xs := rfl

theorem listMin_mem (a : Int) (xs : List Int) : listMin a xs = a ∨ listMin a xs ∈ xs := by
  induction xs generalizing a with
  | nil => exact Or.inl rfl
  | cons x xs ih =>
    rw [listMin_cons]
    rcases ih (min a x) with h | h
    · rcases min_choice a x with h' | h'
      · exact Or.inl (h.trans h')
      · exact Or.inr (by rw [h, h']; exact List.mem_cons_self x xs)
    · exact Or.inr (List.mem_cons_of_mem x h)

theorem listMin_le (a : Int) (xs : List Int) :
    listMin a xs ≤ a ∧ ∀ x ∈ xs, listMin a xs ≤ x := by
  induction xs generalizing a with
  | nil => exact ⟨le_refl a, by intro x hx; cases hx⟩
  | cons x xs ih =>
    rw [listMin_cons]
    obtain ⟨h1, h2⟩ := ih (min a x)
    refine ⟨h1.trans (min_le_left a x), ?_⟩
    intro y hy
    rcases List.mem_cons.mp hy with rfl | hy
    · exact h1.trans (min_le_right a y)
    · exact h2 y hy

theorem calcBA_eq_ediv (s m : Int) (hm : 0 < m) :
    calculateBundleAvailability s m = .ok (s / m) := by
  unfold calculateBundleAvailability
  rw [if_neg (not_le.mpr hm), Int.fdiv_eq_ediv s (le_of_lt hm)]

theorem mapComponents_ok (comps : List Component) (hq : ∀ c ∈ comps, 0 < c.quantity) :
    mapComponents comps = .ok (comps.map (fun c => Int.fdiv c.stock c.quantity)) := by
  induction comps with
  | nil => rfl
  | cons c rest ih =>
    have hc : ¬ c.quantity ≤ 0 := not_le.mpr (hq c (List.mem_cons_self c rest))
    have hrest := ih (fun d hd => hq d (List.mem_cons_of_mem c hd))
    simp only [mapComponents, if_neg hc, hrest, List.map_cons]

theorem calcMixed_cons_eq (c : Component) (rest : List Component)
    (hq : ∀ d ∈ c :: rest, 0 < d.quantity) :
    calculateMixedBundleAvailability (c :: rest) =
      .ok (listMin (Int.fdiv c.stock c.quantity)
        (rest.map (fun d => Int.fdiv d.stock d.quantity))) := by
  have hc : ¬ c.quantity ≤ 0 := not_le.mpr (hq c (List.mem_cons_self c rest))
  have hrest := mapComponents_ok rest (fun d hd => hq d (List.mem_cons_of_mem c hd))
  simp only [calculateMixedBundleAvailability, if_neg hc, hrest]

theorem mapComponents_error (comps : List Component) (h : ∃ c ∈ comps, c.quantity ≤ 0) :
    mapComponents comps = .error "Component quantity must be a positive number" := by
  induction comps with
  | nil => obtain ⟨c, hc, _⟩ := h; cases hc
  | cons c rest ih =>
    by_cases hc : c.quantity ≤ 0
    · simp only [mapComponents, if_pos hc]
    · obtain ⟨d, hd, hdq⟩ := h
      rcases List.mem_cons.mp hd with rfl | hd
      · exact absurd hdq hc
      · simp only [mapComponents, if_neg hc, ih ⟨d, hd, hdq⟩]

/-! ### Claims C2, C3, C6, C10: calculator contracts -/

/-- C2: for every non-negative `physicalStock` and positive `multiplier`,
`calculateBundleAvailability` succeeds and returns exactly the floor of
the quotient (the unique `q` with `q * m ≤ s < (q + 1) * m`); the result
is monotonically non-decreasing in the stock for a fixed multiplier,
equals the stock when the multiplier is 1, and is 0 whenever the stock
is below the multiplier. -/
theorem bundleAvailability_is_floor (s m : Int) (hs : 0 ≤ s) (hm : 0 < m) :
    (∃ q, calculateBundleAvailability s m = .ok q ∧ 0 ≤ q ∧ q * m ≤ s ∧ s < (q + 1) * m) ∧
    (∀ s' q q', s ≤ s' → calculateBundleAvailability s m = .ok q →
      calculateBundleAvailability s' m = .ok q' → q ≤ q') ∧
    (m = 1 → calculateBundleAvailability s m = .ok s) ∧
    (s < m → calculateBundleAvailability s m = .ok 0) := by
  refine ⟨⟨s / m, calcBA_eq_ediv s m hm, Int.ediv_nonneg hs (le_of_lt hm),
      Int.ediv_mul_le s (ne_of_gt hm), Int.lt_ediv_add_one_mul_self s hm⟩, ?_, ?_, ?_⟩
  · intro s' q q' hle h1 h2
    rw [calcBA_eq_ediv s m hm] at h1
    rw [calcBA_eq_ediv s' m hm] at h2
    cases h1; cases h2
    exact Int.ediv_le_ediv hm hle
  · rintro rfl
    rw [calcBA_eq_ediv s 1 hm, Int.ediv_one]
  · intro h
    rw [calcBA_eq_ediv s m hm, Int.ediv_eq_zero_of_lt hs h]

/-- Witness for C2 at `physicalStock = 48`, `multiplier = 24`. -/
theorem bundleAvailability_is_floor_witness :
    ((0 : Int) ≤ 48 ∧ (0 : Int) < 24) ∧
    ((∃ q, calculateBundleAvailability 48 24 = .ok q ∧ 0 ≤ q ∧ q * 24 ≤ 48 ∧ 48 < (q + 1) * 24) ∧
     (∀ s' q q', 48 ≤ s' → calculateBundleAvailability 48 24 = .ok q →
       calculateBundleAvailability s' 24 = .ok q' → q ≤ q') ∧
     ((24 : Int) = 1 → calculateBundleAvailability 48 24 = .ok 48) ∧
     ((48 : Int) < 24 → calculateBundleAvailability 48 24 = .ok 0)) :=
  ⟨⟨by decide, by decide⟩, bundleAvailability_is_floor 48 24 (by decide) (by decide)⟩

/-- C3: when every component quantity is positive and every stock is
non-negative, `calculateMixedBundleAvailability` succeeds with the
minimum over components of `floor(stock / quantity)` (the result is a
lower bound of all per-component floor divisions and is attained by one
of them); the empty list yields 0, and a component with zero stock
forces the result to 0. -/
theorem mixedBundleAvailability_is_min (comps : List Component)
    (hq : ∀ c ∈ comps, 0 < c.quantity) (hs : ∀ c ∈ comps, 0 ≤ c.stock) :
    (comps = [] → calculateMixedBundleAvailability comps = .ok 0) ∧
    (∃ q, calculateMixedBundleAvailability comps = .ok q ∧
      (∀ c ∈ comps, q ≤ c.stock / c.quantity) ∧
      (comps ≠ [] → ∃ c ∈ comps, q = c.stock / c.quantity)) ∧
    ((∃ c ∈ comps, c.stock = 0) → calculateMixedBundleAvailability comps = .ok 0) := by
  have hfd : ∀ c ∈ comps, Int.fdiv c.stock c.quantity = c.stock / c.quantity :=
    fun c hc => Int.fdiv_eq_ediv c.stock (le_of_lt (hq c hc))
  match comps with
  | [] =>
    refine ⟨fun _ => rfl, ⟨0, rfl, ?_, ?_⟩, ?_⟩
    · intro c hc; cases hc
    · intro h; exact absurd rfl h
    · rintro ⟨c, hc, _⟩; cases hc
  | c0 :: rest =>
    set q := listMin (Int.fdiv c0.stock c0.quantity)
      (rest.map (fun d => Int.fdiv d.stock d.quantity)) with hq_def
    have heq := calcMixed_cons_eq c0 rest hq
    have hle := listMin_le (Int.fdiv c0.stock c0.quantity)
      (rest.map (fun d => Int.fdiv d.stock d.quantity))
    have hmem := listMin_mem (Int.fdiv c0.stock c0.quantity)
      (rest.map (fun d => Int.fdiv d.stock d.quantity))
    have hlow : ∀ c ∈ c0 :: rest, q ≤ c.stock / c.quantity := by
      intro c hc
      rcases List.mem_cons.mp hc with rfl | hc
      · rw [← hfd c (List.mem_cons_self c rest)]; exact hle.1
      · rw [← hfd c (List.mem_cons_of_mem c0 hc)]
        exact hle.2 _ (List.mem_map_of_mem _ hc)
    have hatt : ∃ c ∈ c0 :: rest, q = c.stock / c.quantity := by
      rcases hmem with h | h
      · exact ⟨c0, List.mem_cons_self c0 rest,
          by rw [hq_def, h, hfd c0 (List.mem_cons_self c0 rest)]⟩
      · obtain ⟨d, hd, hdq⟩ := List.mem_map.mp h
        exact ⟨d, List.mem_cons_of_mem c0 hd,
          by rw [hq_def, ← hdq, hfd d (List.mem_cons_of_mem c0 hd)]⟩
    refine ⟨?_, ⟨q, heq, hlow, fun _ => hatt⟩, ?_⟩
    · intro h; cases h
    rintro ⟨z, hz, hz0⟩
    have hq0 : q = 0 := by
      have hup : q ≤ 0 := by
        have := hlow z hz
        rwa [hz0, Int.zero_ediv] at this
      have hdown : 0 ≤ q := by
        obtain ⟨d, hd, hdq⟩ := hatt
        rw [hdq]
        exact Int.ediv_nonneg (hs d hd) (le_of_lt (hq d hd))
      exact le_antisymm hup hdown
    rw [heq, ← hq_def, hq0]

/-- Witness for C3 at the spec's Scenario B component list. -/
theorem mixedBundleAvailability_is_min_witness :
    ((∀ c ∈ [Component.mk 100 6, Component.mk 40 4, Component.mk 10 2], 0 < c.quantity) ∧
     (∀ c ∈ [Component.mk 100 6, Component.mk 40 4, Component.mk 10 2], 0 ≤ c.stock)) ∧
    (([Component.mk 100 6, Component.mk 40 4, Component.mk 10 2] = ([] : List Component) →
      calculateMixedBundleAvailability [Component.mk 100 6, Component.mk 40 4, Component.mk 10 2] = .ok 0) ∧
    (∃ q, calculateMixedBundleAvailability [Component.mk 100 6, Component.mk 40 4, Component.mk 10 2] = .ok q ∧
      (∀ c ∈ [Component.mk 100 6, Component.mk 40 4, Component.mk 10 2], q ≤ c.stock / c.quantity) ∧
      ([Component.mk 100 6, Component.mk 40 4, Component.mk 10 2] ≠ ([] : List Component) →
        ∃ c ∈ [Component.mk 100 6, Component.mk 40 4, Component.mk 10 2], q = c.stock / c.quantity)) ∧
    ((∃ c ∈ [Component.mk 100 6, Component.mk 40 4, Component.mk 10 2], c.stock = 0) →
      calculateMixedBundleAvailability [Component.mk 100 6, Component.mk 40 4, Component.mk 10 2] = .ok 0)) :=
  ⟨⟨by decide, by decide⟩,
    mixedBundleAvailability_is_min [Component.mk 100 6, Component.mk 40 4, Component.mk 10 2]
      (by decide) (by decide)⟩

/-- C6: the calculators surface `InvalidArgument` to the caller:
`calculateBundleAvailability` fails for every stock whenever the
multiplier is non-positive, and `calculateMixedBundleAvailability`
fails whenever some component quantity is non-positive. -/
theorem calculator_error_contract :
    (∀ s m : Int, m ≤ 0 →
      calculateBundleAvailability s m = .error "Multiplier must be a positive number") ∧
    (∀ comps : List Component, (∃ c ∈ comps, c.quantity ≤ 0) →
      calculateMixedBundleAvailability comps =
        .error "Component quantity must be a positive number") := by
  constructor
  · intro s m hm
    unfold calculateBundleAvailability
    rw [if_pos hm]
  · intro comps h
    match comps with
    | [] => obtain ⟨c, hc, _⟩ := h; cases hc
    | c :: rest =>
      by_cases hc : c.quantity ≤ 0
      · simp only [calculateMixedBundleAvailability, if_pos hc]
      · obtain ⟨d, hd, hdq⟩ := h
        rcases List.mem_cons.mp hd with rfl | hd
        · exact absurd hdq hc
        · simp only [calculateMixedBundleAvailability, if_neg hc,
            mapComponents_error rest ⟨d, hd, hdq⟩]

/-- Witness for C6 at `multiplier = 0`, `multiplier = -1` and a
component list holding a zero quantity. -/
theorem calculator_error_contract_witness :
    calculateBundleAvailability 48 0 = .error "Multiplier must be a positive number" ∧
    calculateBundleAvailability 48 (-1) = .error "Multiplier must be a positive number" ∧
    calculateMixedBundleAvailability [Component.mk 10 1, Component.mk 10 0] =
      .error "Component quantity must be a positive number" :=
  ⟨calculator_error_contract.1 48 0 (by decide),
   calculator_error_contract.1 48 (-1) (by decide),
   calculator_error_contract.2 [Component.mk 10 1, Component.mk 10 0]
     ⟨Component.mk 10 0, by decide, by decide⟩⟩

/-- C10: neither calculator validates non-negative stock — with a
positive multiplier and negative stock `calculateBundleAvailability`
succeeds with a negative result, and with positive quantities and a
negative-stock component `calculateMixedBundleAvailability` succeeds
with a negative result. -/
theorem negative_stock_not_validated (s m : Int) (comps : List Component) (c : Component)
    (hs : s < 0) (hm : 0 < m) (hc : c ∈ comps) (hcs : c.stock < 0)
    (hq : ∀ d ∈ comps, 0 < d.quantity) :
    (∃ r, calculateBundleAvailability s m = .ok r ∧ r < 0) ∧
    (∃ r, calculateMixedBundleAvailability comps = .ok r ∧ r < 0) := by
  constructor
  · exact ⟨s / m, calcBA_eq_ediv s m hm, Int.ediv_neg' hs hm⟩
  · match comps with
    | [] => cases hc
    | c0 :: rest =>
      refine ⟨listMin (Int.fdiv c0.stock c0.quantity)
        (rest.map (fun d => Int.fdiv d.stock d.quantity)), calcMixed_cons_eq c0 rest hq, ?_⟩
      have hle := listMin_le (Int.fdiv c0.stock c0.quantity)
        (rest.map (fun d => Int.fdiv d.stock d.quantity))
      have hcneg : Int.fdiv c.stock c.quantity < 0 := by
        rw [Int.fdiv_eq_ediv c.stock (le_of_lt (hq c hc))]
        exact Int.ediv_neg' hcs (hq c hc)
      rcases List.mem_cons.mp hc with rfl | hc'
      · exact lt_of_le_of_lt hle.1 hcneg
      · exact lt_of_le_of_lt (hle.2 _ (List.mem_map_of_mem _ hc')) hcneg

/-- Witness for C10 at `stock = -1`, `multiplier = 2` and the one-element
component list with stock `-1`. -/
theorem negative_stock_not_validated_witness :
    ((-1 : Int) < 0 ∧ (0 : Int) < 2 ∧ Component.mk (-1) 2 ∈ [Component.mk (-1) 2] ∧
     (Component.mk (-1) 2).stock < 0 ∧ (∀ d ∈ [Component.mk (-1) 2], 0 < d.quantity)) ∧
    ((∃ r, calculateBundleAvailability (-1) 2 = .ok r ∧ r < 0) ∧
     (∃ r, calculateMixedBundleAvailability [Component.mk (-1) 2] = .ok r ∧ r < 0)) :=
  ⟨⟨by decide, by decide, by decide, by decide, by decide⟩,
   negative_stock_not_validated (-1) 2 [Component.mk (-1) 2] (Component.mk (-1) 2)
     (by decide) (by decide) (by decide) (by decide) (by decide)⟩

/-! ### Claim C4: lock acquire contract -/

theorem acquire_fst_true_iff (now : Nat) (lockId bundleId : String) (store : List SyncLock) :
    (acquireSyncLock now lockId bundleId store).1 = true ↔
      ∀ l ∈ store, l.id = lockId → l.expiresAt < now := by
  unfold acquireSyncLock
  by_cases hc : (store.filter (fun l => decide (¬ l.expiresAt < now))).any
      (fun l => l.id == lockId) = true
  · rw [if_pos hc]
    simp only [List.any_eq_true, beq_iff_eq] at hc
    obtain ⟨l, hl, hid⟩ := hc
    rw [List.mem_filter] at hl
    obtain ⟨hls, hdec⟩ := hl
    have hle : ¬ l.expiresAt < now := of_decide_eq_true hdec
    constructor
    · intro hf; exact absurd hf (by simp)
    · intro hall; exact absurd (hall l hls hid) hle
  · rw [if_neg hc]
    constructor
    · intro _ l hl hid
      by_contra hlt
      exact hc (List.any_eq_true.mpr
        ⟨l, List.mem_filter.mpr ⟨hl, decide_eq_true hlt⟩, beq_iff_eq.mpr hid⟩)
    · intro _; rfl

theorem acquire_snd_cases (now : Nat) (lockId bundleId : String) (store : List SyncLock) :
    ((acquireSyncLock now lockId bundleId store).1 = false →
      (acquireSyncLock now lockId bundleId store).2 =
        store.filter (fun l => decide (¬ l.expiresAt < now))) ∧
    ((acquireSyncLock now lockId bundleId store).1 = true →
      (acquireSyncLock now lockId bundleId store).2 =
        store.filter (fun l => decide (¬ l.expiresAt < now)) ++
          [⟨lockId, bundleId, now + SYNC_LOCK_TTL_MS⟩]) := by
  unfold acquireSyncLock
  by_cases hc : (store.filter (fun l => decide (¬ l.expiresAt < now))).any
      (fun l => l.id == lockId) = true
  · rw [if_pos hc]
    exact ⟨fun _ => rfl, fun h => absurd h (by simp)⟩
  · rw [if_neg hc]
    exact ⟨fun h => absurd h (by simp), fun _ => rfl⟩

/-- C4: `acquireSyncLock` first deletes every expired lock, then returns
`true` exactly when no live (non-expired) lock with the requested id was
in the store at call time, `false` exactly when such a live lock exists;
and an acquire performed after the TTL of a prior unreleased lock for
the same id has elapsed succeeds (self-healing). -/
theorem acquireSyncLock_contract (now : Nat) (lockId bundleId : String)
    (store : List SyncLock) (prior : SyncLock) :
    ((acquireSyncLock now lockId bundleId store).1 = true ↔
      ∀ l ∈ store, l.id = lockId → l.expiresAt < now) ∧
    ((acquireSyncLock now lockId bundleId store).1 = false ↔
      ∃ l ∈ store, l.id = lockId ∧ ¬ l.expiresAt < now) ∧
    ((acquireSyncLock now lockId bundleId store).1 = false →
      (acquireSyncLock now lockId bundleId store).2 =
        store.filter (fun l => decide (¬ l.expiresAt < now))) ∧
    ((acquireSyncLock now lockId bundleId store).1 = true →
      (acquireSyncLock now lockId bundleId store).2 =
        store.filter (fun l => decide (¬ l.expiresAt < now)) ++
          [⟨lockId, bundleId, now + SYNC_LOCK_TTL_MS⟩]) ∧
    (prior.id = lockId → prior.expiresAt < now →
      (acquireSyncLock now lockId bundleId [prior]).1 = true) := by
  have hA := acquire_fst_true_iff now lockId bundleId store
  have hS := acquire_snd_cases now lockId bundleId store
  refine ⟨hA, ?_, hS.1, hS.2, ?_⟩
  · rw [Bool.eq_false_iff, Ne, hA]
    push_neg
    simp only [not_lt]
  · intro hid hlt
    rw [acquire_fst_true_iff]
    intro l hl hid'
    rw [List.mem_singleton] at hl
    subst hl
    exact hlt

/-- Witness for C4: a live lock blocks acquisition; an expired lock for
the same id is cleaned up and re-acquired. -/
theorem acquireSyncLock_contract_witness :
    ((acquireSyncLock 100000 "lock-a" "b1" [SyncLock.mk "lock-a" "b1" 60000]).1 = true ↔
      ∀ l ∈ [SyncLock.mk "lock-a" "b1" 60000], l.id = "lock-a" → l.expiresAt < 100000) ∧
    ((acquireSyncLock 100000 "lock-a" "b1" [SyncLock.mk "lock-a" "b1" 60000]).1 = false ↔
      ∃ l ∈ [SyncLock.mk "lock-a" "b1" 60000], l.id = "lock-a" ∧ ¬ l.expiresAt < 100000) ∧
    ((acquireSyncLock 100000 "lock-a" "b1" [SyncLock.mk "lock-a" "b1" 60000]).1 = false →
      (acquireSyncLock 100000 "lock-a" "b1" [SyncLock.mk "lock-a" "b1" 60000]).2 =
        [SyncLock.mk "lock-a" "b1" 60000].filter (fun l => decide (¬ l.expiresAt < 100000))) ∧
    ((acquireSyncLock 100000 "lock-a" "b1" [SyncLock.mk "lock-a" "b1" 60000]).1 = true →
      (acquireSyncLock 100000 "lock-a" "b1" [SyncLock.mk "lock-a" "b1" 60000]).2 =
        [SyncLock.mk "lock-a" "b1" 60000].filter (fun l => decide (¬ l.expiresAt < 100000)) ++
          [⟨"lock-a", "b1", 100000 + SYNC_LOCK_TTL_MS⟩]) ∧
    ((SyncLock.mk "lock-a" "b1" 60000).id = "lock-a" →
      (SyncLock.mk "lock-a" "b1" 60000).expiresAt < 100000 →
      (acquireSyncLock 100000 "lock-a" "b1" [SyncLock.mk "lock-a" "b1" 60000]).1 = true) :=
  acquireSyncLock_contract 100000 "lock-a" "b1" [SyncLock.mk "lock-a" "b1" 60000]
    (SyncLock.mk "lock-a" "b1" 60000)

/-! ### Claim C7: pick-list aggregation -/

theorem beq_symm (a b : String) : (a == b) = (b == a) := by
  by_cases h : a = b
  · subst h; rfl
  · have h' : ¬ b = a := fun hh => h hh.symm
    simp [h, h']

theorem any_gid_congr (l : List OrderLineItem) (p q : OrderLineItem → Bool)
    (h : ∀ a ∈ l, p a = q a) : l.any p = l.any q := by
  induction l with
  | nil => rfl
  | cons x xs ih =>
    simp only [List.any_cons, h x (List.mem_cons_self x xs),
      ih (fun a ha => h a (List.mem_cons_of_mem x ha))]

theorem sumQty_filter (gid : String) (l : List OrderLineItem) (p : OrderLineItem → Bool)
    (h : ∀ j ∈ l, (j.variantGid == gid) = true → p j = true) :
    sumQty gid (l.filter p) = sumQty gid l := by
  induction l with
  | nil => rfl
  | cons j rest ih =>
    have ihr := ih (fun a ha hq => h a (List.mem_cons_of_mem j ha) hq)
    by_cases hp : p j = true
    · rw [List.filter_cons_of_pos hp]
      simp only [sumQty, ihr]
    · have hg : (j.variantGid == gid) = false := by
        by_contra hgg
        exact hp (h j (List.mem_cons_self j rest) (Bool.of_not_eq_false hgg))
      rw [List.filter_cons_of_neg hp]
      simp only [sumQty, ihr, hg, if_false, Bool.false_eq_true, zero_add]

theorem foldl_aggStep_eq (items acc : List OrderLineItem) :
    items.foldl aggStep acc =
      acc.map (fun e => { e with quantity := e.quantity + sumQty e.variantGid items }) ++
        specAggregate (items.filter
          (fun j => !(acc.any (fun e => e.variantGid == j.variantGid)))) := by
  induction items generalizing acc with
  | nil =>
    have heta : ∀ e : OrderLineItem, { e with quantity := e.quantity + sumQty e.variantGid [] } = e := by
      intro e; cases e; simp [sumQty]
    simp only [List.foldl_nil, List.filter_nil, specAggregate, List.append_nil,
      List.map_congr_left (fun e _ => heta e)]
    exact (List.map_id' acc).symm
  | cons i rest ih =>
    rw [List.foldl_cons]
    by_cases hc : acc.any (fun e => e.variantGid == i.variantGid) = true
    · -- the variant id is already in the map: quantities are merged
      have hstep : aggStep acc i = acc.map (fun e =>
          if e.variantGid == i.variantGid then
            { e with quantity := e.quantity + i.quantity }
          else e) := by
        simp only [aggStep, if_pos hc]
      rw [hstep, ih]
      have hmap : (acc.map (fun e =>
          if e.variantGid == i.variantGid then
            { e with quantity := e.quantity + i.quantity }
          else e)).map (fun e => { e with quantity := e.quantity + sumQty e.variantGid rest }) =
          acc.map (fun e => { e with quantity := e.quantity + sumQty e.variantGid (i :: rest) }) := by
        rw [List.map_map]
        apply List.map_congr_left
        intro e _
        by_cases hg : (e.variantGid == i.variantGid) = true
        · have hg' : (i.variantGid == e.variantGid) = true := by rw [beq_symm]; exact hg
          simp only [Function.comp, if_pos hg, sumQty, hg', if_true, add_assoc]
        · have hg' : (i.variantGid == e.variantGid) = false := by
            rw [beq_symm]; exact Bool.eq_false_iff.mpr hg
          simp only [Function.comp, if_neg hg, sumQty, hg', if_false, Bool.false_eq_true, zero_add]
      have hkeys : ∀ j : OrderLineItem,
          ((acc.map (fun e =>
            if e.variantGid == i.variantGid then
              { e with quantity := e.quantity + i.quantity }
            else e)).any (fun e => e.variantGid == j.variantGid)) =
          acc.any (fun e => e.variantGid == j.variantGid) := by
        intro j
        rw [List.any_map]
        apply any_gid_congr
        intro e _
        by_cases hg : (e.variantGid == i.variantGid) = true
        · simp only [Function.comp, if_pos hg]
        · simp only [Function.comp, if_neg hg]
      have hfilter : rest.filter (fun j => !((acc.map (fun e =>
            if e.variantGid == i.variantGid then
              { e with quantity := e.quantity + i.quantity }
            else e)).any (fun e => e.variantGid == j.variantGid))) =
          (i :: rest).filter (fun j => !(acc.any (fun e => e.variantGid == j.variantGid))) := by
        rw [List.filter_cons_of_neg (by simp [hc])]
        apply List.filter_congr
        intro j _
        rw [hkeys j]
      rw [hmap, hfilter]
    · -- new variant id: the item is appended to the map
      have hcf : acc.any (fun e => e.variantGid == i.variantGid) = false :=
        Bool.eq_false_iff.mpr hc
      have hstep : aggStep acc i = acc ++ [i] := by
        simp only [aggStep, if_neg hc]
      rw [hstep, ih]
      have hnotin : ∀ e ∈ acc, (e.variantGid == i.variantGid) = false := by
        intro e he
        by_contra hgg
        exact hc (List.any_eq_true.mpr ⟨e, he, Bool.of_not_eq_false hgg⟩)
      have hmap : acc.map (fun e => { e with quantity := e.quantity + sumQty e.variantGid rest }) =
          acc.map (fun e => { e with quantity := e.quantity + sumQty e.variantGid (i :: rest) }) := by
        apply List.map_congr_left
        intro e he
        have hg' : (i.variantGid == e.variantGid) = false := by
          rw [beq_symm]; exact hnotin e he
        simp only [sumQty, hg', if_false, Bool.false_eq_true, zero_add]
      have hkeep : (i :: rest).filter (fun j => !(acc.any (fun e => e.variantGid == j.variantGid))) =
          i :: rest.filter (fun j => !(acc.any (fun e => e.variantGid == j.variantGid))) := by
        rw [List.filter_cons_of_pos (by simp [hcf])]
      have hsum : sumQty i.variantGid (rest.filter
          (fun j => !(acc.any (fun e => e.variantGid == j.variantGid)))) =
          sumQty i.variantGid rest := by
        apply sumQty_filter
        intro j _ hq
        have hjq : j.variantGid = i.variantGid := by
          have := (beq_iff_eq (a := j.variantGid) (b := i.variantGid)).mp hq
          exact this
        have : acc.any (fun e => e.variantGid == j.variantGid) = false := by
          rw [← hcf]
          apply any_gid_congr
          intro e _
          rw [hjq]
        simp [this]
      have htail : (rest.filter (fun j => !(acc.any (fun e => e.variantGid == j.variantGid)))).filter
            (fun j => !(j.variantGid == i.variantGid)) =
          rest.filter (fun j => !((acc ++ [i]).any (fun e => e.variantGid == j.variantGid))) := by
        rw [List.filter_filter]
        apply List.filter_congr
        intro j _
        rw [List.any_append]
        simp only [List.any_cons, List.any_nil, Bool.or_false, Bool.not_or]
        rw [beq_symm i.variantGid j.variantGid, Bool.and_comm]
      rw [List.map_append, hmap, List.append_assoc, hkeep]
      congr 1
      simp only [List.map_cons, List.map_nil, List.singleton_append, specAggregate]
      rw [hsum, htail]

/-- C7: `aggregateItems` groups line items by variant id with summed
quantities, taking the descriptive metadata of each group from the first
occurrence of that variant id in input order (it coincides with the
first-occurrence grouping `specAggregate`); in particular the line items
`[(v1,10), (v1,15), (v2,8)]` aggregate to `[(v1,25), (v2,8)]` with v1's
metadata taken from the first v1 item. -/
theorem aggregateItems_groups_by_variant :
    (∀ items : List OrderLineItem, aggregateItems items = specAggregate items) ∧
    aggregateItems
      [⟨"v1", "Prod1", "Var1", some "SKU1", 10⟩,
       ⟨"v1", "Prod1-later", "Var1-later", none, 15⟩,
       ⟨"v2", "Prod2", "Var2", some "SKU2", 8⟩] =
      [⟨"v1", "Prod1", "Var1", some "SKU1", 25⟩,
       ⟨"v2", "Prod2", "Var2", some "SKU2", 8⟩] := by
  constructor
  · intro items
    rw [aggregateItems, foldl_aggStep_eq]
    simp only [List.map_nil, List.nil_append, List.any_nil, Bool.not_false, List.filter_true]
  · rfl

/-! ### Claim C8: CSV export -/

/-- C8: `exportToCSV` emits the fixed header row followed by one row
per item in input order (each row being the five escaped fields joined
by commas); a field containing a comma, quote or newline is wrapped in
double quotes with internal quotes doubled, a field without them is
emitted verbatim, and the Scenario D item serializes to the header plus
`"Lager, Premium",Single,,10,`. -/
theorem exportToCSV_serialization :
    (∀ items : List PickListItem,
      exportToCSV items =
        joinSep "\n" ("Product,Variant,SKU,Quantity,Bin Location" :: items.map specCsvRow)) ∧
    (∀ v : String, (v.data.contains ',' || v.data.contains '"' || v.data.contains '\n') = true →
      escapeCSV v = "\"" ++ doubleQuotes v ++ "\"") ∧
    (∀ v : String, (v.data.contains ',' || v.data.contains '"' || v.data.contains '\n') = false →
      escapeCSV v = v) ∧
    exportToCSV [⟨"Lager, Premium", "Single", none, "v1", 10, none⟩] =
      "Product,Variant,SKU,Quantity,Bin Location\n\"Lager, Premium\",Single,,10," := by
  refine ⟨?_, ?_, ?_, ?_⟩
  · intro items
    show joinSep "\n"
        (joinSep "," ["Product", "Variant", "SKU", "Quantity", "Bin Location"] ::
          (items.map (fun item =>
            [escapeCSV item.productTitle, escapeCSV item.variantTitle,
             escapeCSV (item.sku.getD ""), toString item.quantity,
             escapeCSV (item.binLocation.getD "")])).map (joinSep ",")) =
      joinSep "\n" ("Product,Variant,SKU,Quantity,Bin Location" :: items.map specCsvRow)
    rw [List.map_map]
    congr 1
    congr 1
    apply List.map_congr_left
    intro i _
    simp only [Function.comp_apply, joinSep, specCsvRow, String.append_assoc]
  · intro v h
    unfold escapeCSV
    rw [if_pos h]
  · intro v h
    have h' : ¬((v.data.contains ',' || v.data.contains '"' || v.data.contains '\n') = true) := by
      rw [h]; exact Bool.false_ne_true
    unfold escapeCSV
    rw [if_neg h']
  · rfl

/-- Witness for C8: the quoting branch fires on a comma-bearing field
and the verbatim branch on a plain field. -/
theorem exportToCSV_serialization_witness :
    escapeCSV "Lager, Premium" = "\"" ++ doubleQuotes "Lager, Premium" ++ "\"" ∧
    escapeCSV "Single" = "Single" :=
  ⟨exportToCSV_serialization.2.1 "Lager, Premium" (by decide),
   exportToCSV_serialization.2.2.1 "Single" (by decide)⟩

/-! ### Claim C9: result reporting of processInventoryUpdate -/

theorem reportMatch_fields (n : Nat) (p : Except String Nat × SyncState)
    (r : SyncResult) (st2 : SyncState)
    (heq : (match p with
      | (.ok total, s2) =>
        ((.ok (⟨true, n, total, none, none⟩ : SyncResult) : Except String SyncResult), s2)
      | (.error e, s2) => (.error e, s2)) = (.ok r, st2)) :
    r.bundlesAffected = n ∧ r.skipped = none := by
  rcases p with ⟨res, stx⟩
  cases res with
  | ok total =>
    simp only [Prod.mk.injEq] at heq
    obtain ⟨hok, _⟩ := heq
    cases hok
    exact ⟨rfl, rfl⟩
  | error e =>
    simp only [Prod.mk.injEq] at heq
    exact absurd heq.1 (by simp)

/-- C9: the `SyncResult` of `processInventoryUpdate` reports
`bundlesAffected` as the total number of bundles found for the variant
(bundles skipped for lock contention included, since the count does not
depend on the lock table) and leaves `skipped` unset whenever the
per-bundle loop ran; `skipped` is set exactly on resolution failure and
on a variant belonging to no bundle. -/
theorem processInventoryUpdate_reporting (env : Env) (event : InventoryUpdateEvent)
    (now : Nat) (st : SyncState) :
    (env.resolveVariant event.inventoryItemId = none →
      (processInventoryUpdate env event now st).1 =
        .ok ⟨false, 0, 0, some "Could not find variant for inventory item", none⟩) ∧
    (∀ gid, env.resolveVariant event.inventoryItemId = some gid →
      findBundlesForVariant env.bundles event.shop gid = [] →
      (processInventoryUpdate env event now st).1 =
        .ok ⟨true, 0, 0, some "Variant is not part of any bundle", none⟩) ∧
    (∀ gid, env.resolveVariant event.inventoryItemId = some gid →
      findBundlesForVariant env.bundles event.shop gid ≠ [] →
      ∀ r st2, processInventoryUpdate env event now st = (.ok r, st2) →
        r.bundlesAffected = (findBundlesForVariant env.bundles event.shop gid).length ∧
        r.skipped = none) := by
  refine ⟨?_, ?_, ?_⟩
  · intro h
    simp only [processInventoryUpdate, h]
  · intro gid h hempty
    simp only [processInventoryUpdate, h, hempty, List.isEmpty_nil, if_true]
  · intro gid h hne r st2 heq
    have hemp : (findBundlesForVariant env.bundles event.shop gid).isEmpty = false := by
      cases hfb : findBundlesForVariant env.bundles event.shop gid with
      | nil => exact absurd hfb hne
      | cons a l => rfl
    simp only [processInventoryUpdate, h, hemp, Bool.false_eq_true, if_false] at heq
    exact reportMatch_fields (findBundlesForVariant env.bundles event.shop gid).length
      _ r st2 heq

/-- Witness for C9 at a one-bundle shop where the per-bundle loop runs. -/
theorem processInventoryUpdate_reporting_witness :
    (SyncResult.mk true 1 1 none none).bundlesAffected =
      (findBundlesForVariant [Bundle.mk "b1" "s" "B" "p" [BundleChild.mk "cb1" "c" 2]]
        "s" "c").length ∧
    (SyncResult.mk true 1 1 none none).skipped = none :=
  (processInventoryUpdate_reporting
      (Env.mk (fun _ => some "c")
        (fun g => if g == "p" then some "ip" else if g == "c" then some "ic" else none)
        [Bundle.mk "b1" "s" "B" "p" [BundleChild.mk "cb1" "c" 2]] false)
      (InventoryUpdateEvent.mk 100 7 8 "s") 1
      (SyncState.mk (fun i => if i == "ic" then some 8 else if i == "ip" then some 3 else none)
        [])).2.2
    "c" rfl (by decide) (SyncResult.mk true 1 1 none none)
    (processInventoryUpdate
      (Env.mk (fun _ => some "c")
        (fun g => if g == "p" then some "ip" else if g == "c" then some "ic" else none)
        [Bundle.mk "b1" "s" "B" "p" [BundleChild.mk "cb1" "c" 2]] false)
      (InventoryUpdateEvent.mk 100 7 8 "s") 1
      (SyncState.mk (fun i => if i == "ic" then some 8 else if i == "ip" then some 3 else none)
        [])).2
    rfl

/-! ### Claim C5: the sync lock is released on every exit path -/

theorem release_after_acquire_mem (now : Nat) (lockId bundleId : String)
    (store : List SyncLock) :
    ∀ l ∈ releaseSyncLock lockId (acquireSyncLock now lockId bundleId store).2, l ∈ store := by
  intro l hl
  obtain ⟨hmem, hne⟩ := List.mem_filter.mp hl
  cases hfst : (acquireSyncLock now lockId bundleId store).1 with
  | false =>
    rw [(acquire_snd_cases now lockId bundleId store).1 hfst] at hmem
    exact (List.mem_filter.mp hmem).1
  | true =>
    rw [(acquire_snd_cases now lockId bundleId store).2 hfst] at hmem
    rcases List.mem_append.mp hmem with hmem | hmem
    · exact (List.mem_filter.mp hmem).1
    · rw [List.mem_singleton] at hmem
      subst hmem
      simp at hne

theorem acquire_snd_mem (now : Nat) (lockId bundleId : String) (store : List SyncLock)
    (hfst : (acquireSyncLock now lockId bundleId store).1 = false) :
    ∀ l ∈ (acquireSyncLock now lockId bundleId store).2, l ∈ store := by
  intro l hl
  rw [(acquire_snd_cases now lockId bundleId store).1 hfst] at hl
  exact (List.mem_filter.mp hl).1

theorem processBundles_locks_mono (env : Env) (changedGid locationGid : String)
    (locationId : Int) (newAvailable : Int) (now : Nat) :
    ∀ (bundles : List Bundle) (total : Nat) (st : SyncState),
      ∀ l ∈ ((processBundles env changedGid locationGid locationId newAvailable now
          bundles total st).2).locks, l ∈ st.locks := by
  intro bundles
  induction bundles with
  | nil => intro total st l hl; exact hl
  | cons b rest ih =>
    intro total st l hl
    simp only [processBundles] at hl
    by_cases hacq :
        (acquireSyncLock now (mkLockId b.id locationId now) b.id st.locks).1 = true
    · rw [if_pos hacq] at hl
      split at hl
      · exact release_after_acquire_mem now (mkLockId b.id locationId now) b.id st.locks l hl
      · split at hl
        · exact release_after_acquire_mem now (mkLockId b.id locationId now) b.id st.locks l hl
        · have hmid := ih _ _ l hl
          exact release_after_acquire_mem now (mkLockId b.id locationId now) b.id st.locks l hmid
    · rw [if_neg hacq] at hl
      have hmid := ih total
        ⟨st.levels, (acquireSyncLock now (mkLockId b.id locationId now) b.id st.locks).2⟩ l hl
      exact acquire_snd_mem now (mkLockId b.id locationId now) b.id st.locks
        (Bool.eq_false_iff.mpr hacq) l hmid

/-- C5: no sync lock created during `processInventoryUpdate` survives
the run — every lock present in the final lock table was already in the
initial one, on the success path, the lock-contention skip path and the
error path alike (in particular when the inventory adjustment call
fails, the bundle's lock is still released and the bundle stays
eligible for the next event). -/
theorem syncLock_released_on_all_paths (env : Env) (event : InventoryUpdateEvent)
    (now : Nat) (st : SyncState) :
    ∀ l ∈ ((processInventoryUpdate env event now st).2).locks, l ∈ st.locks := by
  intro l hl
  cases hres : env.resolveVariant event.inventoryItemId with
  | none =>
    simp only [processInventoryUpdate, hres] at hl
    exact hl
  | some gid =>
    by_cases hemp : (findBundlesForVariant env.bundles event.shop gid).isEmpty = true
    · simp only [processInventoryUpdate, hres, hemp, if_true] at hl
      exact hl
    · have hemp' : (findBundlesForVariant env.bundles event.shop gid).isEmpty = false :=
        Bool.eq_false_iff.mpr hemp
      simp only [processInventoryUpdate, hres, hemp', Bool.false_eq_true, if_false] at hl
      rcases hpb : processBundles env gid (locationGidOf event) event.locationId
          event.available now (findBundlesForVariant env.bundles event.shop gid) 0 st
        with ⟨res, st2⟩
      rw [hpb] at hl
      have hsub := processBundles_locks_mono env gid (locationGidOf event) event.locationId
        event.available now (findBundlesForVariant env.bundles event.shop gid) 0 st l
      rw [hpb] at hsub
      cases res with
      | ok total => exact hsub hl
      | error e => exact hsub hl

/-- Witness for C5: a foreign live lock survives the run and was in the
initial table; the run-created lock is gone. -/
theorem syncLock_released_on_all_paths_witness :
    SyncLock.mk "other" "x" 999999 ∈
      (SyncState.mk (fun _ => (none : Option Int)) [SyncLock.mk "other" "x" 999999]).locks :=
  syncLock_released_on_all_paths
    (Env.mk (fun _ => some "c")
      (fun g => if g == "p" then some "ip" else if g == "c" then some "ic" else none)
      [Bundle.mk "b1" "s" "B" "p" [BundleChild.mk "cb1" "c" 2]] true)
    (InventoryUpdateEvent.mk 100 7 8 "s") 1
    (SyncState.mk (fun _ => (none : Option Int)) [SyncLock.mk "other" "x" 999999])
    (SyncLock.mk "other" "x" 999999) (by decide)

/-! ### Claim C1: sync idempotence -/

theorem itemOf_parent (env : Env) (b : Bundle) :
    itemOf env b b.parentGid = env.inventoryItem b.parentGid := by
  simp [itemOf, inBundle]

theorem itemOf_child (env : Env) (b : Bundle) (c : BundleChild) (hc : c ∈ b.children) :
    itemOf env b c.childGid = env.inventoryItem c.childGid := by
  have hib : inBundle b c.childGid = true := by
    simp only [inBundle, Bool.or_eq_true, List.any_eq_true]
    exact Or.inr ⟨c, hc, beq_self_eq_true c.childGid⟩
  simp [itemOf, hib]

theorem calcMixed_ok (comps : List Component) (hq : ∀ c ∈ comps, 0 < c.quantity) :
    ∃ q, calculateMixedBundleAvailability comps = .ok q := by
  match comps with
  | [] => exact ⟨0, rfl⟩
  | c :: rest => exact ⟨_, calcMixed_cons_eq c rest hq⟩

theorem expectedOf_ok (env : Env) (levels : String → Option Int) (b : Bundle)
    (gid : String) (N : Int) (hq : ∀ c ∈ b.children, 0 < c.quantity) :
    ∃ E, expectedOf env levels b gid N = .ok E := by
  unfold expectedOf
  cases hch : b.children with
  | nil => exact ⟨0, rfl⟩
  | cons child tail =>
    cases htl : tail with
    | nil =>
      have hpos : 0 < child.quantity := hq child (by rw [hch]; exact List.mem_cons_self _ _)
      exact ⟨_, calcBA_eq_ediv _ _ hpos⟩
    | cons d tail2 =>
      apply calcMixed_ok
      intro comp hcomp
      obtain ⟨cc, hcc, hmap⟩ := List.mem_map.mp hcomp
      rw [← hmap]
      exact hq cc (by rw [hch, htl]; exact hcc)

theorem adjust_ok (env : Env) (levels : String → Option Int)
    (adjs : List InventoryAdjustment) (hfail : env.adjustFails = false) :
    ∃ levels2, adjustInventoryLevels env levels adjs = .ok levels2 := by
  unfold adjustInventoryLevels
  by_cases he : (adjs.filter (fun a => decide (a.delta ≠ 0))).isEmpty = true
  · rw [if_pos he]; exact ⟨levels, rfl⟩
  · rw [if_neg he, hfail]
    exact ⟨_, rfl⟩

theorem stockOf_unchanged_child (env : Env) (levels : String → Option Int)
    (b : Bundle) (gid : String) (N : Int) (pid loc : String) (d : Int)
    (hpid : env.inventoryItem b.parentGid = some pid)
    (hna : ∀ c ∈ b.children, c.childGid ≠ gid →
      env.inventoryItem c.childGid ≠ env.inventoryItem b.parentGid ∨
        env.inventoryItem b.parentGid = none)
    (c : BundleChild) (hc : c ∈ b.children) :
    stockOf env (applyAdjustment levels ⟨pid, loc, d⟩) b gid N c.childGid =
      stockOf env levels b gid N c.childGid := by
  unfold stockOf
  cases hio : itemOf env b c.childGid with
  | none => rfl
  | some i =>
    by_cases hg : (c.childGid == gid) = true
    · simp [hg]
    · have hgf : (c.childGid == gid) = false := Bool.eq_false_iff.mpr hg
      simp only [hgf, Bool.false_eq_true, if_false]
      have hne : c.childGid ≠ gid := by
        intro hh
        rw [hh, beq_self_eq_true] at hgf
        cases hgf
      rcases hna c hc hne with hd | hd
      · have hic : env.inventoryItem c.childGid = some i := by
          rw [← itemOf_child env b c hc]; exact hio
        have hip : i ≠ pid := by
          intro hh
          apply hd
          rw [hic, hpid, hh]
        have hbeq : (i == pid) = false := beq_eq_false_iff_ne.mpr hip
        simp [applyAdjustment, hbeq]
      · rw [hpid] at hd; cases hd

theorem expectedOf_levels_congr (env : Env) (levels levels' : String → Option Int)
    (b : Bundle) (gid : String) (N : Int)
    (h : ∀ c ∈ b.children, stockOf env levels' b gid N c.childGid =
      stockOf env levels b gid N c.childGid) :
    expectedOf env levels' b gid N = expectedOf env levels b gid N := by
  unfold expectedOf
  cases hch : b.children with
  | nil => rfl
  | cons child tail =>
    cases htl : tail with
    | nil =>
      have hco := h child (by rw [hch, htl]; exact List.mem_cons_self _ _)
      simp only [hco]
    | cons d tail2 =>
      have hm : ∀ cc ∈ child :: d :: tail2,
          (⟨(stockOf env levels' b gid N cc.childGid).getD 0, cc.quantity⟩ : Component) =
            ⟨(stockOf env levels b gid N cc.childGid).getD 0, cc.quantity⟩ := by
        intro cc hcc
        rw [h cc (by rw [hch, htl]; exact hcc)]
      show calculateMixedBundleAvailability
          ((child :: d :: tail2).map (fun c =>
            (⟨(stockOf env levels' b gid N c.childGid).getD 0, c.quantity⟩ : Component))) =
        calculateMixedBundleAvailability
          ((child :: d :: tail2).map (fun c =>
            (⟨(stockOf env levels b gid N c.childGid).getD 0, c.quantity⟩ : Component)))
      rw [List.map_congr_left hm]

theorem calcAdjust_second_run_empty (env : Env) (levels : String → Option Int) (b : Bundle)
    (locationGid gid : String) (N : Int)
    (hq : ∀ c ∈ b.children, 0 < c.quantity)
    (hnp : gid ≠ b.parentGid)
    (hna : ∀ c ∈ b.children, c.childGid ≠ gid →
      env.inventoryItem c.childGid ≠ env.inventoryItem b.parentGid ∨
        env.inventoryItem b.parentGid = none)
    (adjs : List InventoryAdjustment) (levels2 : String → Option Int)
    (hcalc : calculateBundleAdjustments env levels b locationGid gid N = .ok adjs)
    (happly : adjustInventoryLevels env levels adjs = .ok levels2) :
    calculateBundleAdjustments env levels2 b locationGid gid N = .ok [] := by
  obtain ⟨E, hexp⟩ := expectedOf_ok env levels b gid N hq
  unfold calculateBundleAdjustments at hcalc
  simp only [hexp] at hcalc
  by_cases hδ : E - (stockOf env levels b gid N b.parentGid).getD 0 ≠ 0
  · rw [if_pos hδ] at hcalc
    cases hitem : itemOf env b b.parentGid with
    | none =>
      simp only [hitem] at hcalc
      injection hcalc with hadj
      subst hadj
      have hlv : levels2 = levels := by
        have : adjustInventoryLevels env levels [] = .ok levels := rfl
        rw [this] at happly
        injection happly with hh
        exact hh.symm
      subst hlv
      unfold calculateBundleAdjustments
      simp only [hexp, if_pos hδ, hitem]
    | some pid =>
      simp only [hitem] at hcalc
      injection hcalc with hadj
      subst hadj
      have hδd : (decide ((E - (stockOf env levels b gid N b.parentGid).getD 0) ≠ 0)) = true :=
        decide_eq_true hδ
      unfold adjustInventoryLevels at happly
      simp only [List.filter_cons, List.filter_nil, hδd, if_true, List.isEmpty_cons,
        Bool.false_eq_true, if_false] at happly
      cases hfail : env.adjustFails with
      | true => rw [hfail] at happly; cases happly
      | false =>
        rw [hfail] at happly
        simp only [List.foldl_cons, List.foldl_nil] at happly
        injection happly with hlv
        have hpid : env.inventoryItem b.parentGid = some pid := by
          rw [← itemOf_parent env b]; exact hitem
        have hpg : (b.parentGid == gid) = false := beq_eq_false_iff_ne.mpr (Ne.symm hnp)
        have hstocks : ∀ c ∈ b.children,
            stockOf env levels2 b gid N c.childGid = stockOf env levels b gid N c.childGid := by
          intro c hc
          rw [← hlv]
          exact stockOf_unchanged_child env levels b gid N pid locationGid
            (E - (stockOf env levels b gid N b.parentGid).getD 0) hpid hna c hc
        have hexp2 : expectedOf env levels2 b gid N = .ok E := by
          rw [expectedOf_levels_congr env levels levels2 b gid N hstocks, hexp]
        have hpar2 : (stockOf env levels2 b gid N b.parentGid).getD 0 = E := by
          rw [← hlv]
          unfold stockOf
          simp only [hitem, hpg, Bool.false_eq_true, if_false, applyAdjustment,
            beq_self_eq_true, if_true, Option.getD_some]
          omega
        unfold calculateBundleAdjustments
        simp only [hexp2, hpar2, sub_self, ne_eq, not_true_eq_false, if_false]
  · rw [if_neg hδ] at hcalc
    injection hcalc with hadj
    subst hadj
    have hlv : levels2 = levels := by
      have : adjustInventoryLevels env levels [] = .ok levels := rfl
      rw [this] at happly
      injection happly with hh
      exact hh.symm
    subst hlv
    unfold calculateBundleAdjustments
    simp only [hexp, if_neg hδ]

theorem calcAdjust_ok (env : Env) (levels : String → Option Int) (b : Bundle)
    (locationGid gid : String) (N : Int) (hq : ∀ c ∈ b.children, 0 < c.quantity) :
    ∃ adjs, calculateBundleAdjustments env levels b locationGid gid N = .ok adjs := by
  obtain ⟨E, hexp⟩ := expectedOf_ok env levels b gid N hq
  unfold calculateBundleAdjustments
  simp only [hexp]
  by_cases hδ : E - (stockOf env levels b gid N b.parentGid).getD 0 ≠ 0
  · rw [if_pos hδ]
    cases itemOf env b b.parentGid
    · exact ⟨[], rfl⟩
    · exact ⟨_, rfl⟩
  · rw [if_neg hδ]
    exact ⟨[], rfl⟩

theorem processBundles_single (env : Env) (gid locGid : String) (locId : Int) (N : Int)
    (now : Nat) (b : Bundle) (levels : String → Option Int)
    (adjs : List InventoryAdjustment) (levels2 : String → Option Int)
    (hcalc : calculateBundleAdjustments env levels b locGid gid N = .ok adjs)
    (happly : adjustInventoryLevels env levels adjs = .ok levels2) :
    processBundles env gid locGid locId N now [b] 0 ⟨levels, []⟩ =
      (.ok adjs.length, ⟨levels2, []⟩) := by
  have hacq : acquireSyncLock now (mkLockId b.id locId now) b.id [] =
      (true, [⟨mkLockId b.id locId now, b.id, now + SYNC_LOCK_TTL_MS⟩]) := rfl
  have hrel : releaseSyncLock (mkLockId b.id locId now)
      [⟨mkLockId b.id locId now, b.id, now + SYNC_LOCK_TTL_MS⟩] = [] := by
    simp [releaseSyncLock]
  simp only [processBundles, hacq, if_true, hcalc, happly, hrel, Nat.zero_add]

theorem processInventoryUpdate_single (env : Env) (event : InventoryUpdateEvent) (now : Nat)
    (levels : String → Option Int) (gid : String) (b : Bundle)
    (adjs : List InventoryAdjustment) (levels2 : String → Option Int)
    (hres : env.resolveVariant event.inventoryItemId = some gid)
    (hfind : findBundlesForVariant env.bundles event.shop gid = [b])
    (hcalc : calculateBundleAdjustments env levels b (locationGidOf event) gid
      event.available = .ok adjs)
    (happly : adjustInventoryLevels env levels adjs = .ok levels2) :
    processInventoryUpdate env event now ⟨levels, []⟩ =
      (.ok ⟨true, 1, adjs.length, none, none⟩, ⟨levels2, []⟩) := by
  simp only [processInventoryUpdate, hres, hfind, List.isEmpty_cons, Bool.false_eq_true,
    if_false]
  rw [processBundles_single env gid (locationGidOf event) event.locationId event.available
    now b levels adjs levels2 hcalc happly]
  rfl

/-- C1 (amended): applying the same inventory update event a second
time with no intervening external state change yields
`adjustmentsMade = 0` — and in fact leaves the external state entirely
unchanged — provided the event's variant resolves to a component (not
the parent) of the single affected bundle, the component quantities are
positive, no component shares the parent variant's inventory item, no
sync lock is initially held, and the adjustment call succeeds. (As
stated over all events, the claim fails when the triggering variant is
the bundle's parent: the webhook's `available` is then substituted for
the parent's current stock on every application, so the delta does not
recompute to zero.) -/
theorem sync_idempotent_for_component_trigger (env : Env) (event : InventoryUpdateEvent)
    (st : SyncState) (gid : String) (b : Bundle) (now1 now2 : Nat)
    (hres : env.resolveVariant event.inventoryItemId = some gid)
    (hfind : findBundlesForVariant env.bundles event.shop gid = [b])
    (hnp : gid ≠ b.parentGid)
    (hq : ∀ c ∈ b.children, 0 < c.quantity)
    (hna : ∀ c ∈ b.children, c.childGid ≠ gid →
      env.inventoryItem c.childGid ≠ env.inventoryItem b.parentGid ∨
        env.inventoryItem b.parentGid = none)
    (hlocks : st.locks = [])
    (hfail : env.adjustFails = false) :
    ∃ n st1, processInventoryUpdate env event now1 st = (.ok ⟨true, 1, n, none, none⟩, st1) ∧
      processInventoryUpdate env event now2 st1 = (.ok ⟨true, 1, 0, none, none⟩, st1) := by
  obtain ⟨levels, locks⟩ := st
  simp only at hlocks
  subst hlocks
  obtain ⟨adjs, hcalc⟩ :=
    calcAdjust_ok env levels b (locationGidOf event) gid event.available hq
  obtain ⟨levels2, happly⟩ := adjust_ok env levels adjs hfail
  have h1 := processInventoryUpdate_single env event now1 levels gid b adjs levels2
    hres hfind hcalc happly
  have hsecond := calcAdjust_second_run_empty env levels b (locationGidOf event) gid
    event.available hq hnp hna adjs levels2 hcalc happly
  have happly2 : adjustInventoryLevels env levels2 [] = .ok levels2 := rfl
  have h2 := processInventoryUpdate_single env event now2 levels2 gid b [] levels2
    hres hfind hsecond happly2
  exact ⟨adjs.length, ⟨levels2, []⟩, h1, h2⟩

/-- Witness for the amended C1 at a concrete component-triggered event:
base stock 8, pack size 2, parent stock 3; the first application issues
one adjustment, the second none. -/
theorem sync_idempotent_for_component_trigger_witness :
    ∃ n st1,
      processInventoryUpdate
        (Env.mk (fun _ => some "c")
          (fun g => if g == "p" then some "ip" else if g == "c" then some "ic" else none)
          [Bundle.mk "b1" "s" "B" "p" [BundleChild.mk "cb1" "c" 2]] false)
        (InventoryUpdateEvent.mk 100 7 8 "s") 1
        (SyncState.mk
          (fun i => if i == "ic" then some 8 else if i == "ip" then some 3 else none) []) =
        (.ok ⟨true, 1, n, none, none⟩, st1) ∧
      processInventoryUpdate
        (Env.mk (fun _ => some "c")
          (fun g => if g == "p" then some "ip" else if g == "c" then some "ic" else none)
          [Bundle.mk "b1" "s" "B" "p" [BundleChild.mk "cb1" "c" 2]] false)
        (InventoryUpdateEvent.mk 100 7 8 "s") 2 st1 =
        (.ok ⟨true, 1, 0, none, none⟩, st1) :=
  sync_idempotent_for_component_trigger
    (Env.mk (fun _ => some "c")
      (fun g => if g == "p" then some "ip" else if g == "c" then some "ic" else none)
      [Bundle.mk "b1" "s" "B" "p" [BundleChild.mk "cb1" "c" 2]] false)
    (InventoryUpdateEvent.mk 100 7 8 "s")
    (SyncState.mk
      (fun i => if i == "ic" then some 8 else if i == "ip" then some 3 else none) [])
    "c" (Bundle.mk "b1" "s" "B" "p" [BundleChild.mk "cb1" "c" 2]) 1 2
    rfl (by decide) (by decide) (by decide)
    (by
      intro c hc hne
      exact absurd rfl (by
        rw [List.mem_singleton] at hc
        subst hc
        exact hne))
    rfl rfl

/-- Counterexample to C1 as stated: a parent-triggered event (webhook
for the bundle parent `p` with `available = 5`, base stock 8, pack size
2) applied twice with no intervening external change reports
`adjustmentsMade = 1` — not 0 — on the second application, because the
stale webhook value 5 is substituted for the parent's current stock on
every application. -/
theorem sync_idempotence_counterexample :
    (processInventoryUpdate
      (Env.mk (fun _ => some "p")
        (fun g => if g == "p" then some "ip" else if g == "c" then some "ic" else none)
        [Bundle.mk "b1" "s" "B" "p" [BundleChild.mk "cb1" "c" 2]] false)
      (InventoryUpdateEvent.mk 100 7 5 "s") 1
      (SyncState.mk
        (fun i => if i == "ic" then some 8 else if i == "ip" then some 5 else none) [])).1 =
      .ok ⟨true, 1, 1, none, none⟩ ∧
    (processInventoryUpdate
      (Env.mk (fun _ => some "p")
        (fun g => if g == "p" then some "ip" else if g == "c" then some "ic" else none)
        [Bundle.mk "b1" "s" "B" "p" [BundleChild.mk "cb1" "c" 2]] false)
      (InventoryUpdateEvent.mk 100 7 5 "s") 2
      ((processInventoryUpdate
        (Env.mk (fun _ => some "p")
          (fun g => if g == "p" then some "ip" else if g == "c" then some "ic" else none)
          [Bundle.mk "b1" "s" "B" "p" [BundleChild.mk "cb1" "c" 2]] false)
        (InventoryUpdateEvent.mk 100 7 5 "s") 1
        (SyncState.mk
          (fun i => if i == "ic" then some 8 else if i == "ip" then some 5 else none)
          [])).2)).1 =
      .ok ⟨true, 1, 1, none, none⟩ ∧
    (1 : Nat) ≠ 0 :=
  ⟨rfl, rfl, by decide⟩

end SpicyPickle
